import Mathlib

/-!
Shallow embedding of the `dwp` Diceware passphrase generator (two Go
variants: `dwp.go` drawing 32-bit words from `crypto/rand`, and a TPM
variant drawing single bytes from `tpm2.GetRandom`), together with
theorems checking the natural-language specification against the code.

Machine integers are modelled as `Nat`/`Int`; a raw 32-bit word read from
the entropy source is a `Nat` below `2^32` (its unsigned bit pattern), a
raw byte is a `Nat` below `256`.
-/

namespace Dwp

/-! ## Samplers -/

/-- TPM variant, `secureRandInt`: `maxValid := byte(255 - (255 % uint8(max)))`.
For `1 ≤ max ≤ 255` the `uint8` narrowing is the identity and the byte
subtraction does not wrap, so the computation is exactly this `Nat` one. -/
def maxValid (max : ℕ) : ℕ := 255 - 255 % max

/-- One iteration of the TPM variant's rejection loop, given the byte `b`
returned by `tpm2.GetRandom(rwc, 1)`: the code retries when
`random[0] >= maxValid` (`none` here) and otherwise returns
`int32(random[0] % uint8(max))`. -/
def tpmStep (max b : ℕ) : Option ℕ :=
  if b < maxValid max then some (b % max) else none

/-- TPM variant, `secureRandInt`: the whole rejection loop, run against the
finite list of bytes the entropy source produces (one byte per
`tpm2.GetRandom` call, in order).  Returns the sampled value together with
the number of bytes consumed; `none` when every provided byte is rejected
(the real loop would keep polling the TPM). -/
def secureRandIntTPM (max : ℕ) : List ℕ → Option (ℕ × ℕ)
  | [] => none
  | b :: rest =>
    if b < maxValid max then some (b % max, 1)
    else (secureRandIntTPM max rest).map (fun p => (p.1, p.2 + 1))

/-- `crypto/rand` variant (`dwp.go`), `secureRandInt`: read a big-endian
`int32` (bit pattern `w < 2^32`), clear the sign bit with `n & 0x7FFFFFFF`,
and return `n % max`. -/
def secureRandIntRand (w max : ℕ) : ℕ := (w &&& 0x7FFFFFFF) % max

/-! ## Counting helpers for the bias statements -/

/-- Number of raw bytes the TPM sampler accepts and maps to the value `v`. -/
def countTPM (max v : ℕ) : ℕ :=
  ((Finset.range 256).filter (fun b => tpmStep max b = some v)).card

/-- Number of raw 32-bit words the `crypto/rand` sampler maps to `v`. -/
def countRand (max v : ℕ) : ℕ :=
  ((Finset.range (2 ^ 32)).filter (fun w => secureRandIntRand w max = v)).card

/-- Number of masked (sign-bit-cleared) words the `crypto/rand` sampler
maps to `v`. -/
def countRandMasked (max v : ℕ) : ℕ :=
  ((Finset.range (2 ^ 31)).filter (fun w => secureRandIntRand w max = v)).card

/-! ## Diceware number generation

Both variants contain the same `generateDicewareNumber` loop; the only
difference is how the sampler is invoked (TPM handle vs `crypto/rand`).
The sampler is abstracted as an oracle `outs` giving, for the `i`-th
sampler call, the pair `(value, error)` that `secureRandInt(6)` returns
(Go functions return a `(T, error)` pair; `error = none` means `nil`). -/

/-- The loop body of `generateDicewareNumber`: `i` is the index of the next
sampler call, `acc` the accumulated `result`, and the last argument the
number of remaining iterations.  On a sampler error the code returns
`0, fmt.Errorf("failed to generate random number: %v", err)` at once;
otherwise `roll++` and `result = result*10 + int(roll)`.  The second
component of the result counts the sampler calls performed. -/
def genDicewareAux (outs : ℕ → ℕ × Option String) :
    ℕ → ℕ → ℕ → (ℕ × Option String) × ℕ
  | i, acc, 0 => ((acc, none), i)
  | i, acc, n + 1 =>
    match outs i with
    | (_, some e) => ((0, some ("failed to generate random number: " ++ e)), i + 1)
    | (roll, none) => genDicewareAux outs (i + 1) (acc * 10 + (roll + 1)) n

/-- `generateDicewareNumber(numDice)` (identical in both variants):
`result := 0`, then `numDice` sampler calls accumulated in decimal. -/
def generateDicewareNumber (outs : ℕ → ℕ × Option String) (numDice : ℕ) :
    (ℕ × Option String) × ℕ :=
  genDicewareAux outs 0 0 numDice

/-! ## Dictionary loading

`loadDictionary` is byte-identical in the two variants.  The text of one
line is a `List Char`; the scanner's newline splitting is not embedded, so
the file content is given as the list of its lines. -/

/-- `strings.Split(line, "\t")`: split around every tab, keeping empty
fields; `n` tabs give `n+1` fields. -/
def splitTab : List Char → List (List Char)
  | [] => [[]]
  | c :: cs =>
    if c = '\t' then [] :: splitTab cs
    else
      match splitTab cs with
      | [] => [[c]]
      | f :: fs => (c :: f) :: fs

/-- Decimal value of a digit string (`'0'.toNat = 48`). -/
def digitsVal (ds : List Char) : ℕ :=
  ds.foldl (fun a c => a * 10 + (c.toNat - 48)) 0

/-- The whitespace test of Go's `fmt` scanner (`isSpace` in `fmt/scan.go`):
the code-point ranges 0x09–0x0D, 0x20, 0x85, 0xA0, 0x1680, 0x2000–0x200A,
0x2028–0x2029, 0x202F, 0x205F, 0x3000; runes above 0xFFFF are not space. -/
def goIsSpace (c : Char) : Bool :=
  decide ((0x9 ≤ c.toNat ∧ c.toNat ≤ 0xd) ∨ c.toNat = 0x20 ∨ c.toNat = 0x85 ∨
    c.toNat = 0xa0 ∨ c.toNat = 0x1680 ∨ (0x2000 ≤ c.toNat ∧ c.toNat ≤ 0x200a) ∨
    c.toNat = 0x2028 ∨ c.toNat = 0x2029 ∨ c.toNat = 0x202f ∨ c.toNat = 0x205f ∨
    c.toNat = 0x3000)

/-- The digit set of Go's `fmt` scanner for a base-10 `%d` verb
(`scanNumber` against the digits `'0'..'9'`; ASCII only). -/
def goIsDigit (c : Char) : Bool :=
  decide (48 ≤ c.toNat ∧ c.toNat ≤ 57)

/-- The digit-run part of `fmt.Sscanf(s, "%d", &number)`: take the longest
leading run of base-10 digits; fail when it is empty (the magnitude of the
run, unbounded here; the int64 range check happens in `parseDec`). -/
def scanDigits (cs : List Char) : Option ℕ :=
  let ds := cs.takeWhile goIsDigit
  if ds = [] then none else some (digitsVal ds)

/-- `fmt.Sscanf(s, "%d", &number)` with `number : int` (64-bit on the
targeted platforms): skip leading whitespace per `fmt`'s space table —
except that in `Scanf` mode a newline in the input is an error, not space
(a `bufio` scanner line cannot contain one anyway) — then read an optional
sign and a non-empty run of base-10 digits; `strconv.ParseInt(tok, 10, 64)`
then fails when the value leaves the int64 range `[-2^63, 2^63-1]`.
Anything after the digit run is left unconsumed and does NOT make the scan
fail. -/
def parseDec (cs : List Char) : Option ℤ :=
  match cs.dropWhile (fun c => goIsSpace c && !decide (c = '\n')) with
  | [] => none
  | c :: cs2 =>
    if c = '\n' then none
    else if c = '-' then
      (scanDigits cs2).bind (fun n => if n ≤ 2 ^ 63 then some (-(n : ℤ)) else none)
    else if c = '+' then
      (scanDigits cs2).bind (fun n => if n ≤ 2 ^ 63 - 1 then some ((n : ℤ)) else none)
    else
      (scanDigits (c :: cs2)).bind (fun n => if n ≤ 2 ^ 63 - 1 then some ((n : ℤ)) else none)

/-- One iteration of `loadDictionary`'s scan loop: split on tabs; when
there are at least two fields and the first scans as an integer, yield the
key/word pair `dict[number] = parts[1]`; otherwise the line is skipped. -/
def processLine (line : List Char) : Option (ℤ × List Char) :=
  match splitTab line with
  | p0 :: p1 :: _ =>
    match parseDec p0 with
    | some n => some (n, p1)
    | none => none
  | _ => none

/-- `dict[number] = parts[1]` on a Go map: point update, last write wins. -/
def dictInsert (d : ℤ → Option (List Char)) (n : ℤ) (w : List Char) :
    ℤ → Option (List Char) :=
  fun k => if k = n then some w else d k

/-- `loadDictionary`'s scan loop over the file's lines, starting from the
empty map.  Line content never causes an error: malformed lines are
skipped (the function's error returns concern only file I/O, which is not
line-dependent). -/
def loadDictionary (lines : List (List Char)) : ℤ → Option (List Char) :=
  lines.foldl
    (fun d line =>
      match processLine line with
      | some (n, w) => dictInsert d n w
      | none => d)
    (fun _ => none)

/-! ## The `main` functions

`main` is modelled as a pure function from the parsed flag values and the
outcomes of its effectful collaborators to the observable behaviour:
stdout lines, stderr lines, and the process exit code.  `gens i` is the
`(int, error)` pair returned by the `i`-th `generateDicewareNumber` call;
`dictLoad` is `none` when no `-d` flag is given, and otherwise the result
of `loadDictionary`; for the TPM variant `openErr` is the error (if any)
of `tpm2.OpenTPM()`. -/

/-- Result of a `main` run.  `exitCode 0` corresponds to `main` returning
normally, `exitCode 1` to `os.Exit(1)`. -/
structure MainRes where
  stdout : List String
  stderr : List String
  exitCode : ℕ
deriving Repr, DecidableEq

/-- `%05d` for a non-negative operand: pad with leading zeros to width 5. -/
def fmt05 (n : ℕ) : String :=
  String.mk (List.replicate (5 - (toString n).length) '0') ++ toString n

/-- The word for a generated number: `nil` map or missing key give none. -/
def dictWord (dict : Option (ℤ → Option String)) (num : ℕ) : Option String :=
  match dict with
  | some d => d (num : ℤ)
  | none => none

/-- The stdout line printed for iteration `i` (0-based; the code prints
`i+1`): `Diceware number %d: %05d` plus, when a dictionary was loaded,
either ` - <word>` or the "word not found" note. -/
def dicewareLine (i num : ℕ) (dict : Option (ℤ → Option String)) : String :=
  "Diceware number " ++ toString (i + 1) ++ ": " ++ fmt05 num ++
    (match dict with
     | none => ""
     | some d =>
       match d (num : ℤ) with
       | some w => " - " ++ w
       | none => " - (word not found in dictionary for number " ++ fmt05 num ++ ")")

/-- The generation loop of `main`: from iteration `i`, with the given
number of iterations left, produce the stdout lines printed, the
passphrase words collected (in order), and the first generation error if
one occurs (in which case the loop stops; lines printed before it are
kept). -/
def runRolls (dict : Option (ℤ → Option String)) (gens : ℕ → ℕ × Option String) :
    ℕ → ℕ → List String × List String × Option String
  | _, 0 => ([], [], none)
  | i, n + 1 =>
    match gens i with
    | (_, some e) => ([], [], some e)
    | (num, none) =>
      let res := runRolls dict gens (i + 1) n
      (dicewareLine i num dict :: res.1,
       (match dictWord dict num with
        | some w => w :: res.2.1
        | none => res.2.1),
       res.2.2)

/-- The `fmt.Fprintf` lines of `printUsage` in the TPM variant
(`flag.PrintDefaults()` output elided: it is produced by the flag
library, not this repository). -/
def usageTPM (argv0 : String) : List String :=
  ["Usage: " ++ argv0 ++ " [-r rolls] [-d dictionary] [-p] [-s separator]",
   "  -r rolls       number of Diceware numbers to generate (default 10)",
   "  -d dictionary  path to Diceware dictionary file",
   "  -p             output complete passphrase",
   "  -s separator   separator for passphrase words (default space)"]

/-- The `fmt.Fprintf` lines of `printUsage` in `dwp.go`
(`flag.PrintDefaults()` output elided). -/
def usageRand (argv0 : String) : List String :=
  ["Usage: " ++ argv0 ++ " [-r rolls] [-d dictionary] [-p]",
   "  -r rolls       number of Diceware numbers to generate (default 10)",
   "  -d dictionary  path to Diceware dictionary file",
   "  -p             output complete passphrase"]

/-- `main` of the TPM variant.  Note the `tpm2.OpenTPM()` failure branch:
the code prints to stderr and then executes `return` (not `os.Exit(1)`),
so the process terminates with exit status 0. -/
def mainTPM (rolls : ℤ) (openErr : Option String)
    (dictLoad : Option (Except String (ℤ → Option String))) (p : Bool)
    (sep : String) (gens : ℕ → ℕ × Option String) (argv0 : String) : MainRes :=
  if rolls < 1 then
    ⟨[], "Error: Number of rolls must be at least 1" :: usageTPM argv0, 1⟩
  else
    match openErr with
    | some e => ⟨[], ["Failed to open TPM: " ++ e], 0⟩
    | none =>
      match dictLoad with
      | some (Except.error e) => ⟨[], ["Error loading dictionary: " ++ e], 1⟩
      | _ =>
        let dict : Option (ℤ → Option String) :=
          match dictLoad with
          | some (Except.ok d) => some d
          | _ => none
        let res := runRolls dict gens 0 rolls.toNat
        match res.2.2 with
        | some e => ⟨res.1, ["Error generating Diceware number: " ++ e], 1⟩
        | none =>
          ⟨res.1 ++
             (if p = true ∧ res.2.1 ≠ [] then
               ["", "Complete passphrase: " ++ String.intercalate sep res.2.1]
              else []),
           [], 0⟩

/-- `main` of `dwp.go` (`crypto/rand` variant): no TPM handle, and the
passphrase separator is the hardcoded `" "` of `strings.Join(..., " ")`. -/
def mainRand (rolls : ℤ) (dictLoad : Option (Except String (ℤ → Option String)))
    (p : Bool) (gens : ℕ → ℕ × Option String) (argv0 : String) : MainRes :=
  if rolls < 1 then
    ⟨[], "Error: Number of rolls must be at least 1" :: usageRand argv0, 1⟩
  else
    match dictLoad with
    | some (Except.error e) => ⟨[], ["Error loading dictionary: " ++ e], 1⟩
    | _ =>
      let dict : Option (ℤ → Option String) :=
        match dictLoad with
        | some (Except.ok d) => some d
        | _ => none
      let res := runRolls dict gens 0 rolls.toNat
      match res.2.2 with
      | some e => ⟨res.1, ["Error generating Diceware number: " ++ e], 1⟩
      | none =>
        ⟨res.1 ++
           (if p = true ∧ res.2.1 ≠ [] then
             ["", "Complete passphrase: " ++ String.intercalate " " res.2.1]
            else []),
         [], 0⟩

/-! ## Helper lemmas -/

lemma filter_mod_Ico_eq_singleton (M k c : ℕ) (hc : c < M) :
    (Finset.Ico (k * M) (k * M + M)).filter (fun v => v % M = c) = {k * M + c} := by
  ext x
  simp only [Finset.mem_filter, Finset.mem_Ico, Finset.mem_singleton]
  constructor
  · rintro ⟨⟨h1, h2⟩, h3⟩
    have hlt : x - k * M < M := by omega
    have hx : x = (x - k * M) + k * M := by omega
    have : x % M = x - k * M := by
      conv_lhs => rw [hx]
      rw [Nat.add_mul_mod_self_right, Nat.mod_eq_of_lt hlt]
    omega
  · rintro rfl
    refine ⟨⟨by omega, by omega⟩, ?_⟩
    rw [add_comm, Nat.add_mul_mod_self_right, Nat.mod_eq_of_lt hc]

lemma card_filter_mod_mul (M c : ℕ) (hc : c < M) :
    ∀ k, ((Finset.range (k * M)).filter (fun v => v % M = c)).card = k := by
  intro k
  induction k with
  | zero => simp
  | succ k ih =>
    have hsplit : Finset.range ((k + 1) * M) =
        Finset.range (k * M) ∪ Finset.Ico (k * M) (k * M + M) := by
      simp only [Finset.range_eq_Ico]
      rw [Finset.Ico_union_Ico_eq_Ico (by omega) (by omega)]
      congr 1
      ring
    have hdisj : Disjoint (Finset.range (k * M)) (Finset.Ico (k * M) (k * M + M)) := by
      rw [Finset.disjoint_left]
      intro a ha hb
      simp only [Finset.mem_range] at ha
      simp only [Finset.mem_Ico] at hb
      omega
    rw [hsplit, Finset.filter_union,
      Finset.card_union_of_disjoint (Finset.disjoint_filter_filter hdisj), ih,
      filter_mod_Ico_eq_singleton M k c hc, Finset.card_singleton]

lemma secureRandIntRand_eq_mod (w max : ℕ) :
    secureRandIntRand w max = w % 2 ^ 31 % max := by
  unfold secureRandIntRand
  have h : (0x7FFFFFFF : ℕ) = 2 ^ 31 - 1 := by norm_num
  rw [h, Nat.and_pow_two_sub_one_eq_mod]

lemma countRandMasked_eq (c : ℕ) (hc : c < 6) :
    countRandMasked 6 c = 357913941 +
      ((Finset.Ico 2147483646 2147483648).filter (fun v => v % 6 = c)).card := by
  unfold countRandMasked
  have hfc : ∀ v ∈ Finset.range (2 ^ 31),
      (secureRandIntRand v 6 = c) = (v % 6 = c) := by
    intro v hv
    simp only [Finset.mem_range] at hv
    rw [secureRandIntRand_eq_mod, Nat.mod_eq_of_lt hv]
  rw [Finset.filter_congr (fun v hv => by rw [hfc v hv])]
  have hsplit : Finset.range (2 ^ 31) =
      Finset.range (357913941 * 6) ∪ Finset.Ico 2147483646 2147483648 := by
    rw [Finset.range_eq_Ico]
    rw [show (357913941 * 6 : ℕ) = 2147483646 by norm_num]
    rw [Finset.Ico_union_Ico_eq_Ico (by omega) (by norm_num)]
    norm_num
  have hdisj : Disjoint (Finset.range (357913941 * 6))
      (Finset.Ico 2147483646 2147483648) := by
    rw [Finset.disjoint_left]
    intro a ha hb
    simp only [Finset.mem_range] at ha
    simp only [Finset.mem_Ico] at hb
    omega
  rw [hsplit, Finset.filter_union,
    Finset.card_union_of_disjoint (Finset.disjoint_filter_filter hdisj),
    card_filter_mod_mul 6 c hc 357913941]

lemma card_filter_Ico_shift (c : ℕ) :
    ((Finset.Ico (2 ^ 31) (2 ^ 32)).filter (fun w => secureRandIntRand w 6 = c)).card
      = ((Finset.range (2 ^ 31)).filter (fun w => secureRandIntRand w 6 = c)).card := by
  symm
  apply Finset.card_nbij (fun v => v + 2 ^ 31)
  · intro a ha
    simp only [Finset.mem_filter, Finset.mem_range] at ha
    simp only [Finset.mem_filter, Finset.mem_Ico]
    refine ⟨⟨by omega, by omega⟩, ?_⟩
    rw [secureRandIntRand_eq_mod] at ha ⊢
    rw [Nat.add_mod_right, ha.2]
  · intro a _ b _ hab
    exact add_right_cancel hab
  · intro b hb
    simp only [Finset.coe_filter, Finset.mem_Ico, Set.mem_setOf_eq] at hb
    refine ⟨b - 2 ^ 31, ?_, ?_⟩
    · simp only [Finset.coe_filter, Finset.mem_range, Set.mem_setOf_eq]
      refine ⟨by omega, ?_⟩
      rw [secureRandIntRand_eq_mod] at hb ⊢
      have hbe : b - 2 ^ 31 + 2 ^ 31 = b := by omega
      rw [← Nat.add_mod_right (b - 2 ^ 31) (2 ^ 31), hbe]
      exact hb.2
    · show b - 2 ^ 31 + 2 ^ 31 = b
      omega

lemma countRand_eq (c : ℕ) :
    countRand 6 c = 2 * countRandMasked 6 c := by
  unfold countRand countRandMasked
  have hsplit : Finset.range (2 ^ 32) =
      Finset.range (2 ^ 31) ∪ Finset.Ico (2 ^ 31) (2 ^ 32) := by
    simp only [Finset.range_eq_Ico]
    rw [Finset.Ico_union_Ico_eq_Ico (by omega) (by norm_num)]
  have hdisj : Disjoint (Finset.range (2 ^ 31)) (Finset.Ico (2 ^ 31) (2 ^ 32)) := by
    rw [Finset.disjoint_left]
    intro a ha hb
    simp only [Finset.mem_range] at ha
    simp only [Finset.mem_Ico] at hb
    omega
  rw [hsplit, Finset.filter_union,
    Finset.card_union_of_disjoint (Finset.disjoint_filter_filter hdisj),
    card_filter_Ico_shift]
  ring

lemma countTPM_eq (max v : ℕ) (h1 : 0 < max) (hv : v < max) :
    countTPM max v = 255 / max := by
  unfold countTPM
  have hmv : maxValid max = 255 / max * max := by
    unfold maxValid
    have h := Nat.div_add_mod 255 max
    rw [Nat.mul_comm] at h
    omega
  have hident : (Finset.range 256).filter (fun b => tpmStep max b = some v)
      = (Finset.range (maxValid max)).filter (fun b => b % max = v) := by
    ext b
    simp only [Finset.mem_filter, Finset.mem_range, tpmStep]
    constructor
    · rintro ⟨hb, hstep⟩
      by_cases hlt : b < maxValid max
      · rw [if_pos hlt] at hstep
        exact ⟨hlt, by injection hstep⟩
      · rw [if_neg hlt] at hstep
        exact absurd hstep (by simp)
    · rintro ⟨hb, hbv⟩
      have hb256 : b < 256 := by
        have : maxValid max ≤ 255 := by unfold maxValid; omega
        omega
      exact ⟨hb256, by rw [if_pos hb, hbv]⟩
  rw [hident, hmv, card_filter_mod_mul max v hv (255 / max)]

/-! ## Claim theorems -/

/-- C4: the masked-modulo sampler of the 32-bit-word variant (`dwp.go`'s
`secureRandInt`) is statistically biased for `max = 6`: over the `2^31`
possible masked 32-bit values, the outputs `0..5` do not all have equally
many preimages (output 0 has 357913942, output 2 only 357913941), because
`2^31 mod 6 ≠ 0`. -/
theorem c4_masked_modulo_biased :
    countRandMasked 6 0 = 357913942 ∧ countRandMasked 6 2 = 357913941 ∧
    2 ^ 31 % 6 ≠ 0 ∧
    ¬ (∀ v w, v < 6 → w < 6 → countRandMasked 6 v = countRandMasked 6 w) := by
  have h0 : countRandMasked 6 0 = 357913942 := by
    rw [countRandMasked_eq 0 (by norm_num),
      show ((Finset.Ico 2147483646 2147483648).filter (fun v => v % 6 = 0)).card = 1
        from by decide]
  have h2 : countRandMasked 6 2 = 357913941 := by
    rw [countRandMasked_eq 2 (by norm_num),
      show ((Finset.Ico 2147483646 2147483648).filter (fun v => v % 6 = 2)).card = 0
        from by decide]
  refine ⟨h0, h2, by decide, fun hall => ?_⟩
  have := hall 0 2 (by norm_num) (by norm_num)
  omega

/-- C1, counterexample: the claim asserts that the sampler of BOTH variants
is free of modulo bias for every `max` in `(0,256)`, but the `crypto/rand`
variant's `secureRandInt` is biased at `max = 6`: over the `2^32` raw
32-bit words (all of which are accepted — the variant never rejects), the
output 0 has 715827884 preimages while the output 2 has 715827882. -/
theorem c1_counterexample :
    countRand 6 0 = 715827884 ∧ countRand 6 2 = 715827882 ∧
    countRand 6 0 ≠ countRand 6 2 := by
  have h0 : countRand 6 0 = 715827884 := by
    rw [countRand_eq, countRandMasked_eq 0 (by norm_num),
      show ((Finset.Ico 2147483646 2147483648).filter (fun v => v % 6 = 0)).card = 1
        from by decide]
  have h2 : countRand 6 2 = 715827882 := by
    rw [countRand_eq, countRandMasked_eq 2 (by norm_num),
      show ((Finset.Ico 2147483646 2147483648).filter (fun v => v % 6 = 2)).card = 0
        from by decide]
  exact ⟨h0, h2, by omega⟩

/-- C1, amended: for every `max` in `(0,256)`, both samplers return only
values in `[0,max)`, and the TPM variant's rejection sampler is free of
modulo bias (every output value has the same number of accepted raw
bytes); the `crypto/rand` variant's masked-modulo sampler, however, IS
biased for some such `max` (see the counterexample at `max = 6`). -/
theorem c1_amended_samplers (max : ℕ) (h1 : 0 < max) (h2 : max < 256) :
    (∀ b v, tpmStep max b = some v → v < max) ∧
    (∀ v w, v < max → w < max → countTPM max v = countTPM max w) ∧
    (∀ word, secureRandIntRand word max < max) := by
  refine ⟨?_, ?_, ?_⟩
  · intro b v h
    unfold tpmStep at h
    by_cases hlt : b < maxValid max
    · rw [if_pos hlt] at h
      have hbv : b % max = v := by injection h
      have := Nat.mod_lt b h1
      omega
    · rw [if_neg hlt] at h
      exact absurd h (by simp)
  · intro v w hv hw
    rw [countTPM_eq max v h1 hv, countTPM_eq max w h1 hw]
  · intro word
    exact Nat.mod_lt _ h1

/-- Witness for the amended C1 at the concrete bound `max = 6`. -/
theorem c1_amended_witness :
    0 < 6 ∧ 6 < 256 ∧
    ((∀ b v, tpmStep 6 b = some v → v < 6) ∧
     (∀ v w, v < 6 → w < 6 → countTPM 6 v = countTPM 6 w) ∧
     (∀ word, secureRandIntRand word 6 < 6)) :=
  ⟨by decide, by decide, c1_amended_samplers 6 (by decide) (by decide)⟩

/-- C2: for every `max` in `[2,256)` and every byte `b`, the TPM variant's
rejection sampler never accepts a value `≥ max`; every byte at or above
`256 - (256 mod max)` is rejected (the code's actual threshold
`255 - (255 mod max)` is never larger, so the whole claimed range is
indeed retried); and an accepted byte `b` yields `b mod max`. -/
theorem c2_rejection_byte (max b : ℕ) (h1 : 2 ≤ max) (h2 : max < 256) (hb : b < 256) :
    (∀ v, tpmStep max b = some v → v < max) ∧
    (256 - 256 % max ≤ b → tpmStep max b = none) ∧
    (∀ v, tpmStep max b = some v → v = b % max) := by
  have d1 := Nat.div_add_mod 255 max
  have d2 := Nat.div_add_mod 256 max
  have hdiv : 255 / max ≤ 256 / max := Nat.div_le_div_right (by omega)
  have hle : maxValid max ≤ 256 - 256 % max := by
    unfold maxValid
    have := Nat.mul_le_mul_left max hdiv
    omega
  refine ⟨?_, ?_, ?_⟩
  · intro v h
    unfold tpmStep at h
    by_cases hlt : b < maxValid max
    · rw [if_pos hlt] at h
      have hbv : b % max = v := by injection h
      have : b % max < max := Nat.mod_lt b (by omega)
      omega
    · rw [if_neg hlt] at h
      exact absurd h (by simp)
  · intro hge
    unfold tpmStep
    rw [if_neg (by omega)]
  · intro v h
    unfold tpmStep at h
    by_cases hlt : b < maxValid max
    · rw [if_pos hlt] at h
      have hbv : b % max = v := by injection h
      omega
    · rw [if_neg hlt] at h
      exact absurd h (by simp)

/-- Witness for C2 at `max = 6`, `b = 253` (a rejected byte: `253 ≥ 252`). -/
theorem c2_rejection_byte_witness :
    2 ≤ 6 ∧ 6 < 256 ∧ 253 < 256 ∧
    ((∀ v, tpmStep 6 253 = some v → v < 6) ∧
     (256 - 256 % 6 ≤ 253 → tpmStep 6 253 = none) ∧
     (∀ v, tpmStep 6 253 = some v → v = 253 % 6)) :=
  ⟨by decide, by decide, by decide,
   c2_rejection_byte 6 253 (by decide) (by decide) (by decide)⟩

/-- C9: for every `max` in `1..255` and every byte stream containing at
least one byte strictly below `255 - (255 mod max)` (equivalently: whose
`dropWhile` of rejected bytes is non-empty, starting with `b`), the TPM
variant's rejection loop terminates, returning `b mod max` where `b` is
the first such byte, and consumes exactly the bytes up to and including
`b`. -/
theorem c9_rejection_loop_terminates (max : ℕ) (stream : List ℕ) (b : ℕ)
    (rest : List ℕ) (h1 : 1 ≤ max) (h2 : max ≤ 255)
    (hsplit : stream.dropWhile (fun x => decide (maxValid max ≤ x)) = b :: rest) :
    secureRandIntTPM max stream =
      some (b % max,
        (stream.takeWhile (fun x => decide (maxValid max ≤ x))).length + 1) := by
  induction stream with
  | nil => simp [List.dropWhile] at hsplit
  | cons x xs ih =>
    by_cases hx : maxValid max ≤ x
    · have hstep : secureRandIntTPM max (x :: xs)
          = (secureRandIntTPM max xs).map (fun p => (p.1, p.2 + 1)) := by
        simp only [secureRandIntTPM]
        rw [if_neg (by omega)]
      have hdrop : xs.dropWhile (fun x => decide (maxValid max ≤ x)) = b :: rest := by
        rw [List.dropWhile_cons] at hsplit
        simpa [hx] using hsplit
      have htake : (x :: xs).takeWhile (fun x => decide (maxValid max ≤ x))
          = x :: xs.takeWhile (fun x => decide (maxValid max ≤ x)) := by
        rw [List.takeWhile_cons]
        simp [hx]
      rw [hstep, ih hdrop, htake]
      simp
    · have hbx : x = b ∧ xs = rest := by
        rw [List.dropWhile_cons] at hsplit
        simpa [hx] using hsplit
      have htake : (x :: xs).takeWhile (fun x => decide (maxValid max ≤ x)) = [] := by
        rw [List.takeWhile_cons]
        simp [hx]
      rw [htake, ← hbx.1]
      simp only [secureRandIntTPM]
      rw [if_pos (by omega)]
      simp

/-- Witness for C9: `max = 6`, stream `[253, 252, 3, 7]`; the bytes 253 and
252 are rejected (`maxValid 6 = 252`), then 3 is accepted, so the result is
`3 % 6 = 3` after consuming exactly 3 bytes. -/
theorem c9_rejection_loop_witness :
    1 ≤ 6 ∧ 6 ≤ 255 ∧
    ([253, 252, 3, 7] : List ℕ).dropWhile (fun x => decide (maxValid 6 ≤ x)) = 3 :: [7] ∧
    secureRandIntTPM 6 [253, 252, 3, 7] =
      some (3 % 6,
        (([253, 252, 3, 7] : List ℕ).takeWhile (fun x => decide (maxValid 6 ≤ x))).length + 1) :=
  ⟨by decide, by decide, by decide,
   c9_rejection_loop_terminates 6 [253, 252, 3, 7] 3 [7] (by decide) (by decide) (by decide)⟩

lemma diceware_digits_ok (a b c d e : ℕ)
    (ha : a < 6) (hb : b < 6) (hc : c < 6) (hd : d < 6) (he : e < 6) :
    (11111 ≤ ((((a + 1) * 10 + (b + 1)) * 10 + (c + 1)) * 10 + (d + 1)) * 10 + (e + 1) ∧
     ((((a + 1) * 10 + (b + 1)) * 10 + (c + 1)) * 10 + (d + 1)) * 10 + (e + 1) ≤ 66666) ∧
    ∀ k < 5,
      1 ≤ (((((a + 1) * 10 + (b + 1)) * 10 + (c + 1)) * 10 + (d + 1)) * 10 + (e + 1))
            / 10 ^ k % 10 ∧
      (((((a + 1) * 10 + (b + 1)) * 10 + (c + 1)) * 10 + (d + 1)) * 10 + (e + 1))
            / 10 ^ k % 10 ≤ 6 := by
  refine ⟨by omega, ?_⟩
  intro k hk
  interval_cases k <;> norm_num <;> omega

/-- C5: when every one of the five sampler calls succeeds with a value in
`[0,6)`, `generateDicewareNumber` with `numDice = 5` returns (with no
error, after exactly 5 sampler calls) the integer obtained by folding
`result = result*10 + (roll+1)` over the five rolls in order; consequently
the result lies in `[11111, 66666]` and each of its 5 decimal digits lies
in `{1,...,6}`. -/
theorem c5_generate_five_digits (outs : ℕ → ℕ × Option String)
    (hok : ∀ i, i < 5 → (outs i).2 = none) (hlt : ∀ i, i < 5 → (outs i).1 < 6) :
    generateDicewareNumber outs 5 =
      (([(outs 0).1, (outs 1).1, (outs 2).1, (outs 3).1, (outs 4).1].foldl
          (fun acc r => acc * 10 + (r + 1)) 0, none), 5) ∧
    (11111 ≤ (generateDicewareNumber outs 5).1.1 ∧
      (generateDicewareNumber outs 5).1.1 ≤ 66666) ∧
    ∀ k, k < 5 →
      1 ≤ (generateDicewareNumber outs 5).1.1 / 10 ^ k % 10 ∧
      (generateDicewareNumber outs 5).1.1 / 10 ^ k % 10 ≤ 6 := by
  have epair : ∀ i, i < 5 → outs i = ((outs i).1, none) := by
    intro i hi
    rw [← hok i hi]
  obtain ⟨r0, h0⟩ : ∃ r, outs 0 = (r, none) := ⟨(outs 0).1, epair 0 (by norm_num)⟩
  obtain ⟨r1, h1⟩ : ∃ r, outs 1 = (r, none) := ⟨(outs 1).1, epair 1 (by norm_num)⟩
  obtain ⟨r2, h2⟩ : ∃ r, outs 2 = (r, none) := ⟨(outs 2).1, epair 2 (by norm_num)⟩
  obtain ⟨r3, h3⟩ : ∃ r, outs 3 = (r, none) := ⟨(outs 3).1, epair 3 (by norm_num)⟩
  obtain ⟨r4, h4⟩ : ∃ r, outs 4 = (r, none) := ⟨(outs 4).1, epair 4 (by norm_num)⟩
  have hmain : generateDicewareNumber outs 5 =
      (([(outs 0).1, (outs 1).1, (outs 2).1, (outs 3).1, (outs 4).1].foldl
          (fun acc r => acc * 10 + (r + 1)) 0, none), 5) := by
    simp [generateDicewareNumber, genDicewareAux, h0, h1, h2, h3, h4]
  refine ⟨hmain, ?_⟩
  rw [hmain]
  have hfold : [(outs 0).1, (outs 1).1, (outs 2).1, (outs 3).1, (outs 4).1].foldl
      (fun acc r => acc * 10 + (r + 1)) 0 =
      (((((outs 0).1 + 1) * 10 + ((outs 1).1 + 1)) * 10 + ((outs 2).1 + 1)) * 10
        + ((outs 3).1 + 1)) * 10 + ((outs 4).1 + 1) := by
    simp [List.foldl]
  rw [hfold]
  exact diceware_digits_ok _ _ _ _ _
    (hlt 0 (by norm_num)) (hlt 1 (by norm_num)) (hlt 2 (by norm_num))
    (hlt 3 (by norm_num)) (hlt 4 (by norm_num))

/-- Witness for C5 with the concrete rolls `0, 3, 0, 3, 0` (number 14141). -/
theorem c5_generate_witness :
    (∀ i, i < 5 → ((fun i => ((i * 3) % 6, (none : Option String))) i).2 = none) ∧
    (∀ i, i < 5 → ((fun i => ((i * 3) % 6, (none : Option String))) i).1 < 6) ∧
    (generateDicewareNumber (fun i => ((i * 3) % 6, none)) 5 =
      (([0, 3, 0, 3, 0].foldl (fun acc r => acc * 10 + (r + 1)) 0, none), 5) ∧
    (11111 ≤ (generateDicewareNumber (fun i => ((i * 3) % 6, none)) 5).1.1 ∧
      (generateDicewareNumber (fun i => ((i * 3) % 6, none)) 5).1.1 ≤ 66666) ∧
    ∀ k, k < 5 →
      1 ≤ (generateDicewareNumber (fun i => ((i * 3) % 6, none)) 5).1.1 / 10 ^ k % 10 ∧
      (generateDicewareNumber (fun i => ((i * 3) % 6, none)) 5).1.1 / 10 ^ k % 10 ≤ 6) :=
  ⟨fun i _ => rfl, fun i hi => by interval_cases i <;> decide,
   c5_generate_five_digits (fun i => ((i * 3) % 6, none))
     (fun i _ => rfl) (fun i hi => by interval_cases i <;> decide)⟩

lemma genAux_first_error (outs : ℕ → ℕ × Option String) (e : String) :
    ∀ n i acc j, j < n → (∀ k, k < j → (outs (i + k)).2 = none) →
      outs (i + j) = ((outs (i + j)).1, some e) →
      genDicewareAux outs i acc n =
        ((0, some ("failed to generate random number: " ++ e)), i + j + 1) := by
  intro n
  induction n with
  | zero => intro i acc j hj; omega
  | succ n ih =>
    intro i acc j hj hok herr
    match j, hj with
    | 0, _ =>
      rw [Nat.add_zero] at herr
      obtain ⟨r, hr⟩ : ∃ r, outs i = (r, some e) := ⟨(outs i).1, herr⟩
      simp [genDicewareAux, hr]
    | j' + 1, _ =>
      have h0 : outs i = ((outs i).1, none) := by
        have := hok 0 (by omega)
        rw [Nat.add_zero] at this
        rw [← this]
      obtain ⟨r0, hr0⟩ : ∃ r, outs i = (r, none) := ⟨(outs i).1, h0⟩
      rw [show genDicewareAux outs i acc (n + 1)
            = genDicewareAux outs (i + 1) (acc * 10 + (r0 + 1)) n from by
          simp [genDicewareAux, hr0]]
      have hok' : ∀ k, k < j' → (outs (i + 1 + k)).2 = none := by
        intro k hk
        have := hok (k + 1) (by omega)
        rwa [show i + (k + 1) = i + 1 + k by omega] at this
      have herr' : outs (i + 1 + j') = ((outs (i + 1 + j')).1, some e) := by
        rwa [show i + 1 + j' = i + (j' + 1) by omega]
      rw [ih (i + 1) (acc * 10 + (r0 + 1)) j' (by omega) hok' herr']
      congr 1
      omega

/-- C6: if one of the five sampler calls inside `generateDicewareNumber`
fails, the function stops at the first failing call (exactly `j+1` sampler
calls are performed when call `j` is the first to fail), returns the error
wrapped as `failed to generate random number: <err>`, and discards the
partial accumulation: the returned integer is 0. -/
theorem c6_generate_first_error (outs : ℕ → ℕ × Option String) (j : ℕ) (e : String)
    (hj : j < 5) (hok : ∀ k, k < j → (outs k).2 = none)
    (herr : (outs j).2 = some e) :
    generateDicewareNumber outs 5 =
      ((0, some ("failed to generate random number: " ++ e)), j + 1) := by
  have hok' : ∀ k, k < j → (outs (0 + k)).2 = none := by
    intro k hk
    rw [Nat.zero_add]
    exact hok k hk
  have herr' : outs (0 + j) = ((outs (0 + j)).1, some e) := by
    rw [Nat.zero_add, ← herr]
  have := genAux_first_error outs e 5 0 0 j hj hok' herr'
  rw [Nat.zero_add] at this
  exact this

/-- Witness for C6: the third sampler call (index 2) fails with "tpm gone";
two successful calls precede it, so exactly 3 calls happen and the result
is `(0, wrapped error)`. -/
theorem c6_generate_witness :
    2 < 5 ∧
    (∀ k, k < 2 →
      ((fun i => if i < 2 then (3, none) else (0, some "tpm gone")) k
        : ℕ × Option String).2 = none) ∧
    ((fun i => if i < 2 then (3, none) else (0, some "tpm gone")) 2
      : ℕ × Option String).2 = some "tpm gone" ∧
    generateDicewareNumber (fun i => if i < 2 then (3, none) else (0, some "tpm gone")) 5 =
      ((0, some ("failed to generate random number: " ++ "tpm gone")), 2 + 1) :=
  ⟨by decide, fun k hk => by interval_cases k <;> rfl, rfl,
   c6_generate_first_error (fun i => if i < 2 then (3, none) else (0, some "tpm gone"))
     2 "tpm gone" (by decide) (fun k hk => by interval_cases k <;> rfl) rfl⟩

lemma processLine_none (line : List Char)
    (h : (splitTab line).length < 2 ∨ parseDec (splitTab line).headI = none) :
    processLine line = none := by
  rcases hsp : splitTab line with _ | ⟨p0, _ | ⟨p1, rest⟩⟩
  · simp [processLine, hsp]
  · simp [processLine, hsp]
  · rcases h with h | h
    · rw [hsp] at h
      simp at h
      omega
    · rw [hsp] at h
      simp only [List.headI] at h
      simp [processLine, hsp, h]

/-- C7: a malformed dictionary line — fewer than two tab-separated fields,
or a first field on which the integer scan fails — is skipped without
aborting the load and without affecting anything else: the dictionary
built from the file is exactly the one built with the malformed line
absent, so every well-formed line before or after it still loads.  (In the
code, line content can never produce an error: the only error returns of
`loadDictionary` concern file I/O.) -/
theorem c7_malformed_line_skipped (pre post : List (List Char)) (line : List Char)
    (h : (splitTab line).length < 2 ∨ parseDec (splitTab line).headI = none) :
    loadDictionary (pre ++ line :: post) = loadDictionary (pre ++ post) := by
  have hp : processLine line = none := processLine_none line h
  unfold loadDictionary
  simp only [List.foldl_append, List.foldl_cons, hp]

/-- Witness for C7: the tabless line `no-tab-line` between two well-formed
lines changes nothing. -/
theorem c7_malformed_line_witness :
    ((splitTab "no-tab-line".toList).length < 2 ∨
      parseDec (splitTab "no-tab-line".toList).headI = none) ∧
    loadDictionary (["11111\tapple".toList] ++ "no-tab-line".toList ::
        ["22222\tbanana".toList]) =
      loadDictionary (["11111\tapple".toList] ++ ["22222\tbanana".toList]) :=
  ⟨by decide,
   c7_malformed_line_skipped ["11111\tapple".toList] ["22222\tbanana".toList]
     "no-tab-line".toList (by decide)⟩

lemma splitTab_no_tab (w : List Char) (hw : '\t' ∉ w) : splitTab w = [w] := by
  induction w with
  | nil => rfl
  | cons c cs ih =>
    have hc : ¬(c = '\t') := fun h => hw (h ▸ List.mem_cons_self c cs)
    have hcs : '\t' ∉ cs := fun h => hw (List.mem_cons_of_mem c h)
    simp [splitTab, hc, ih hcs]

lemma splitTab_append_tab (a w : List Char) (ha : '\t' ∉ a) :
    splitTab (a ++ '\t' :: w) = a :: splitTab w := by
  induction a with
  | nil => simp [splitTab]
  | cons c cs ih =>
    have hc : ¬(c = '\t') := fun h => ha (h ▸ List.mem_cons_self c cs)
    have hcs : '\t' ∉ cs := fun h => ha (List.mem_cons_of_mem c h)
    simp [splitTab, hc, ih hcs]

lemma takeWhile_digits_append (ds rest : List Char)
    (hds : ∀ c ∈ ds, goIsDigit c = true)
    (hrest : ∀ c ∈ rest.take 1, goIsDigit c = false) :
    (ds ++ rest).takeWhile goIsDigit = ds := by
  induction ds with
  | nil =>
    cases rest with
    | nil => rfl
    | cons r rs =>
      have hr := hrest r (by simp)
      simp [List.takeWhile_cons, hr]
  | cons c cs ih =>
    have hc : goIsDigit c = true := hds c (List.mem_cons_self c cs)
    simp [List.takeWhile_cons, hc,
      ih (fun x hx => hds x (List.mem_cons_of_mem c hx))]

lemma char_digit_facts (c : Char) (h : goIsDigit c = true) :
    goIsSpace c = false ∧
    ¬(c = '\n') ∧ ¬(c = '-') ∧ ¬(c = '+') := by
  simp only [goIsDigit, decide_eq_true_eq] at h
  have hs : goIsSpace c = false := by
    simp only [goIsSpace, decide_eq_false_iff_not]
    omega
  refine ⟨hs, ?_, ?_, ?_⟩
  · intro hc
    rw [hc] at h
    exact absurd h (by decide)
  · intro hc
    rw [hc] at h
    exact absurd h (by decide)
  · intro hc
    rw [hc] at h
    exact absurd h (by decide)

lemma parseDec_digits (ds rest : List Char) (hne : ds ≠ [])
    (hds : ∀ c ∈ ds, goIsDigit c = true)
    (hrest : ∀ c ∈ rest.take 1, goIsDigit c = false)
    (hbound : digitsVal ds ≤ 2 ^ 63 - 1) :
    parseDec (ds ++ rest) = some ((digitsVal ds : ℤ)) := by
  obtain ⟨d0, ds', rfl⟩ : ∃ d0 ds', ds = d0 :: ds' := by
    cases ds with
    | nil => exact absurd rfl hne
    | cons a b => exact ⟨a, b, rfl⟩
  have hd0 : goIsDigit d0 = true := hds d0 (List.mem_cons_self _ _)
  obtain ⟨hs, hnl, hminus, hplus⟩ := char_digit_facts d0 hd0
  have htw : ((d0 :: ds') ++ rest).takeWhile goIsDigit = d0 :: ds' :=
    takeWhile_digits_append _ _ hds hrest
  simp only [List.cons_append] at htw
  simp [parseDec, List.dropWhile_cons, hs, hnl, hminus, hplus, scanDigits, htw, hbound]
  simpa using hbound

/-- C10, counterexample: the claim as stated quantifies over every line
whose first field starts with a valid decimal integer followed by trailing
non-digits, with no bound on the integer — but at the 20-digit run
`99999999999999999999` (beyond int64, so `strconv.ParseInt` inside
`fmt.Sscanf` fails with an overflow error) the program SKIPS the line
`99999999999999999999abc<TAB>word` instead of loading it. -/
theorem c10_overflow_line_skipped :
    processLine ("99999999999999999999abc\tword".toList) = none ∧
    loadDictionary ["99999999999999999999abc\tword".toList]
      ((digitsVal "99999999999999999999".toList : ℤ)) = none ∧
    digitsVal "99999999999999999999".toList = 99999999999999999999 := by
  refine ⟨by decide, by decide, by decide⟩

/-- C10, amended: a dictionary line whose first tab-separated field is a
digit run representable in Go's 64-bit `int` (value at most `2^63 - 1`),
followed by trailing non-digit characters (e.g. `123abc<TAB>word`), is NOT
skipped: the scan succeeds on the digit run, its value becomes the key,
and the second field becomes the word.  (Beyond int64 the scan errors and
the line IS skipped, per the counterexample.) -/
theorem c10_digit_run_line_loaded (ds rest w : List Char) (hne : ds ≠ [])
    (hds : ∀ c ∈ ds, goIsDigit c = true)
    (hrest : ∀ c ∈ rest.take 1, goIsDigit c = false)
    (hrtab : '\t' ∉ rest) (hwtab : '\t' ∉ w)
    (hbound : digitsVal ds ≤ 2 ^ 63 - 1) :
    processLine (ds ++ rest ++ '\t' :: w) = some ((digitsVal ds : ℤ), w) ∧
    loadDictionary [ds ++ rest ++ '\t' :: w] ((digitsVal ds : ℤ)) = some w := by
  have hdtab : '\t' ∉ ds ++ rest := by
    intro h
    rcases List.mem_append.mp h with h | h
    · exact absurd (hds _ h) (by decide)
    · exact hrtab h
  have hsp2 : splitTab (ds ++ rest ++ '\t' :: w) = [ds ++ rest, w] := by
    rw [show ds ++ rest ++ '\t' :: w = (ds ++ rest) ++ '\t' :: w from rfl,
      splitTab_append_tab _ _ hdtab, splitTab_no_tab w hwtab]
  have hp : processLine (ds ++ rest ++ '\t' :: w) = some ((digitsVal ds : ℤ), w) := by
    simp only [processLine, hsp2, parseDec_digits ds rest hne hds hrest hbound]
  refine ⟨hp, ?_⟩
  simp only [loadDictionary, List.foldl_cons, List.foldl_nil, hp, dictInsert]
  simp

/-- Witness for C10: the line `123abc<TAB>word` loads key 123 → "word". -/
theorem c10_digit_run_line_witness :
    ("123".toList ≠ [] ∧ (∀ c ∈ "123".toList, goIsDigit c = true) ∧
     (∀ c ∈ "abc".toList.take 1, goIsDigit c = false) ∧
     '\t' ∉ "abc".toList ∧ '\t' ∉ "word".toList ∧
     digitsVal "123".toList ≤ 2 ^ 63 - 1) ∧
    processLine ("123".toList ++ "abc".toList ++ '\t' :: "word".toList) =
      some ((digitsVal "123".toList : ℤ), "word".toList) ∧
    loadDictionary ["123".toList ++ "abc".toList ++ '\t' :: "word".toList]
      ((digitsVal "123".toList : ℤ)) = some "word".toList :=
  ⟨⟨by decide, by decide, by decide, by decide, by decide, by decide⟩,
   c10_digit_run_line_loaded "123".toList "abc".toList "word".toList
     (by decide) (by decide) (by decide) (by decide) (by decide) (by decide)⟩

/-- C3 (refuting evidence): when `tpm2.OpenTPM()` fails at startup, the TPM
variant prints `Failed to open TPM: <err>` to stderr and generates no
numbers — but then executes `return`, so the process terminates with exit
code 0, NOT the non-zero code the claim requires.  (Read failures during
generation do exit with code 1, per the `runRolls` error branch of
`mainTPM`/`mainRand`.) -/
theorem c3_tpm_open_failure_exit_zero (e : String) (gens : ℕ → ℕ × Option String) :
    mainTPM 10 (some e) none false " " gens "dwp" =
      ⟨[], ["Failed to open TPM: " ++ e], 0⟩ := rfl

lemma runRolls_ok (dict : Option (ℤ → Option String)) (gens : ℕ → ℕ × Option String) :
    ∀ n i, (∀ j, j < n → (gens (i + j)).2 = none) →
      runRolls dict gens i n =
        ((List.range n).map (fun j => dicewareLine (i + j) (gens (i + j)).1 dict),
         (List.range n).filterMap (fun j => dictWord dict (gens (i + j)).1),
         none) := by
  intro n
  induction n with
  | zero => intro i _; simp [runRolls]
  | succ n ih =>
    intro i h
    obtain ⟨num, hnum⟩ : ∃ v, gens i = (v, none) := by
      refine ⟨(gens i).1, ?_⟩
      have h0 := h 0 (by omega)
      rw [Nat.add_zero] at h0
      rw [← h0]
    have hrec := ih (i + 1) (fun j hj => by
      have hh := h (j + 1) (by omega)
      rwa [show i + (j + 1) = i + 1 + j by omega] at hh)
    rw [show runRolls dict gens i (n + 1) =
        (dicewareLine i num dict :: (runRolls dict gens (i + 1) n).1,
         (match dictWord dict num with
          | some w => w :: (runRolls dict gens (i + 1) n).2.1
          | none => (runRolls dict gens (i + 1) n).2.1),
         (runRolls dict gens (i + 1) n).2.2) from by simp [runRolls, hnum]]
    rw [hrec]
    have hstep : ∀ j : ℕ, i + 1 + j = i + (j + 1) := fun j => by omega
    have hmap : (List.range (n + 1)).map (fun j => dicewareLine (i + j) (gens (i + j)).1 dict)
        = dicewareLine i num dict ::
          (List.range n).map (fun j => dicewareLine (i + 1 + j) (gens (i + 1 + j)).1 dict) := by
      rw [List.range_succ_eq_map, List.map_cons, List.map_map]
      congr 1
      · rw [Nat.add_zero, hnum]
      · congr 1
        funext j
        simp only [Function.comp_apply, Nat.succ_eq_add_one]
        rw [hstep j]
    have hfm : (List.range (n + 1)).filterMap (fun j => dictWord dict (gens (i + j)).1)
        = (match dictWord dict num with
           | some w => w :: (List.range n).filterMap (fun j => dictWord dict (gens (i + 1 + j)).1)
           | none => (List.range n).filterMap (fun j => dictWord dict (gens (i + 1 + j)).1)) := by
      rw [List.range_succ_eq_map, List.filterMap_cons, List.filterMap_map]
      have hf : ((fun j => dictWord dict (gens (i + j)).1) ∘ Nat.succ)
          = (fun j => dictWord dict (gens (i + 1 + j)).1) := by
        funext j
        simp only [Function.comp_apply, Nat.succ_eq_add_one]
        rw [hstep j]
      rw [hf, Nat.add_zero, hnum]
      cases dictWord dict num <;> rfl
    rw [hmap, hfm]

/-- C8: assuming every generation succeeds, the complete-passphrase output
(a blank line followed by `Complete passphrase: ...`) is appended to
stdout if and only if the `-p` flag is set and at least one generated
number was found in the dictionary; when printed it consists of exactly
the found words, in generation order, joined by the separator — the `-s`
flag's value in the TPM variant and a hardcoded single space in the
`crypto/rand` variant; numbers missing from the dictionary contribute no
word. -/
theorem c8_passphrase_line (rolls : ℤ) (dict? : Option (ℤ → Option String)) (p : Bool)
    (sep : String) (gens : ℕ → ℕ × Option String) (argv0 : String)
    (h1 : 1 ≤ rolls) (hok : ∀ i, i < rolls.toNat → (gens i).2 = none) :
    (mainTPM rolls none (dict?.map Except.ok) p sep gens argv0).stdout =
      (List.range rolls.toNat).map (fun j => dicewareLine j (gens j).1 dict?) ++
        (if p = true ∧
            (List.range rolls.toNat).filterMap (fun j => dictWord dict? (gens j).1) ≠ [] then
          ["", "Complete passphrase: " ++ String.intercalate sep
            ((List.range rolls.toNat).filterMap (fun j => dictWord dict? (gens j).1))]
         else []) ∧
    (mainRand rolls (dict?.map Except.ok) p gens argv0).stdout =
      (List.range rolls.toNat).map (fun j => dicewareLine j (gens j).1 dict?) ++
        (if p = true ∧
            (List.range rolls.toNat).filterMap (fun j => dictWord dict? (gens j).1) ≠ [] then
          ["", "Complete passphrase: " ++ String.intercalate " "
            ((List.range rolls.toNat).filterMap (fun j => dictWord dict? (gens j).1))]
         else []) := by
  have hok0 : ∀ j, j < rolls.toNat → (gens (0 + j)).2 = none := by
    intro j hj
    rw [Nat.zero_add]
    exact hok j hj
  have hrr := runRolls_ok dict? gens rolls.toNat 0 hok0
  simp only [Nat.zero_add] at hrr
  have hnlt : ¬ rolls < 1 := by omega
  constructor
  · cases dict? with
    | none =>
      simp [mainTPM, hnlt, hrr]
      rw [hrr]
    | some d =>
      simp [mainTPM, hnlt, hrr]
      rw [hrr]
  · cases dict? with
    | none =>
      simp [mainRand, hnlt, hrr]
      rw [hrr]
    | some d =>
      simp [mainRand, hnlt, hrr]
      rw [hrr]

/-- Witness for C8: two rolls, dictionary containing only the first
number, `-p` set, separator `"-"`. -/
theorem c8_passphrase_witness :
    (1 : ℤ) ≤ 2 ∧
    (∀ i, i < (2 : ℤ).toNat →
      ((fun i => (11111 + i, (none : Option String))) i).2 = none) ∧
    ((mainTPM 2 none ((some fun k => if k = 11111 then some "alpha" else none).map Except.ok)
        true "-" (fun i => (11111 + i, none)) "dwp").stdout =
      (List.range (2 : ℤ).toNat).map (fun j =>
        dicewareLine j ((fun i => (11111 + i, (none : Option String))) j).1
          (some fun k => if k = 11111 then some "alpha" else none)) ++
        (if true = true ∧
            (List.range (2 : ℤ).toNat).filterMap (fun j =>
              dictWord (some fun k => if k = 11111 then some "alpha" else none)
                ((fun i => (11111 + i, (none : Option String))) j).1) ≠ [] then
          ["", "Complete passphrase: " ++ String.intercalate "-"
            ((List.range (2 : ℤ).toNat).filterMap (fun j =>
              dictWord (some fun k => if k = 11111 then some "alpha" else none)
                ((fun i => (11111 + i, (none : Option String))) j).1))]
         else []) ∧
    (mainRand 2 ((some fun k => if k = 11111 then some "alpha" else none).map Except.ok)
        true (fun i => (11111 + i, none)) "dwp").stdout =
      (List.range (2 : ℤ).toNat).map (fun j =>
        dicewareLine j ((fun i => (11111 + i, (none : Option String))) j).1
          (some fun k => if k = 11111 then some "alpha" else none)) ++
        (if true = true ∧
            (List.range (2 : ℤ).toNat).filterMap (fun j =>
              dictWord (some fun k => if k = 11111 then some "alpha" else none)
                ((fun i => (11111 + i, (none : Option String))) j).1) ≠ [] then
          ["", "Complete passphrase: " ++ String.intercalate " "
            ((List.range (2 : ℤ).toNat).filterMap (fun j =>
              dictWord (some fun k => if k = 11111 then some "alpha" else none)
                ((fun i => (11111 + i, (none : Option String))) j).1))]
         else [])) :=
  ⟨by decide, fun i _ => rfl,
   c8_passphrase_line 2 (some fun k => if k = 11111 then some "alpha" else none)
     true "-" (fun i => (11111 + i, none)) "dwp" (by decide) (fun i _ => rfl)⟩
